import Mathlib

/-!
Verification of the claycli compilation helpers and the domain-prefix
rewriting transform (`lib/prefixes.js`).

`lib/compilation-helpers.js` (bucket, unbucket, determinePostCSSPlugins) is
embedded from its source.  The prefix transform `add`/`remove` is not present
in the repository sources (only its test file is), so it is modelled from the
specification document.
-/

/-- A JavaScript-like value: the data model of a record's contents.
Mappings, ordered sequences, strings, numbers, booleans, null (and
undefined, which JS config lookups may produce). -/
inductive Value where
  | str (s : String) : Value
  | num (n : Int) : Value
  | bool (b : Bool) : Value
  | null : Value
  | undef : Value
  | arr (xs : List Value) : Value
  | obj (kvs : List (String × Value)) : Value

/-- Boolean test that `p` is a leading substring of `s` (lodash `_.startsWith`). -/
def startsWith (p s : String) : Bool :=
  p.data.isPrefixOf s.data

/-- Boolean substring containment on character lists (lodash `_.includes`). -/
def listContainsSub (pat : List Char) : List Char → Bool
  | [] => pat.isEmpty
  | c :: cs => pat.isPrefixOf (c :: cs) || listContainsSub pat cs

/-- Boolean test that `pat` occurs somewhere inside `s` (lodash `_.includes`). -/
def containsSubstr (s pat : String) : Bool :=
  listContainsSub pat.data s.data

/-- Modelled from the spec: a reference string is any string containing the
literal segment `/_components/` or `/_pages/` anywhere in it (spec section 3,
the prefixes implementation itself is missing from the sources). -/
def isRefString (s : String) : Bool :=
  containsSubstr s "/_components/" || containsSubstr s "/_pages/"

/-- Modelled from the spec: `add`'s string operation — prepend the prefix
unless the string already starts with it (spec section 4.1). -/
def addPrefixStr (p s : String) : String :=
  if startsWith p s then s else p ++ s

/-- Modelled from the spec: `remove`'s string operation — strip exactly the
leading prefix when present, otherwise leave the string unchanged
(spec section 4.1). -/
def removePrefixStr (p s : String) : String :=
  if startsWith p s then String.mk (s.data.drop p.data.length) else s

mutual

/-- Modelled from the spec: the recursive traversal shared by `add` and
`remove` (spec section 3), parameterised by the string operation `f` applied
at the two structural positions.  Strings outside structural positions and
other primitives are returned unchanged. -/
def rewriteValue (f : String → String) : Value → Value
  | .str s => .str s
  | .num n => .num n
  | .bool b => .bool b
  | .null => .null
  | .undef => .undef
  | .arr xs => .arr (rewriteArr f xs)
  | .obj kvs => .obj (rewriteObj f kvs)

/-- Modelled from the spec: an ordered sequence is traversed element by
element; an element that is itself a reference string is rewritten directly,
any other element is recursed into (spec section 3). -/
def rewriteArr (f : String → String) : List Value → List Value
  | [] => []
  | .str s :: xs => (if isRefString s then Value.str (f s) else .str s) :: rewriteArr f xs
  | x :: xs => rewriteValue f x :: rewriteArr f xs

/-- Modelled from the spec: a mapping is traversed entry by entry; an entry
whose key is `_ref` and whose value is a string has that string rewritten as
a reference, every other entry has its value recursed into (spec section 3). -/
def rewriteObj (f : String → String) : List (String × Value) → List (String × Value)
  | [] => []
  | (k, .str s) :: kvs =>
    (k, if k == "_ref" then Value.str (f s) else .str s) :: rewriteObj f kvs
  | (k, v) :: kvs => (k, rewriteValue f v) :: rewriteObj f kvs

end

/-- The action of the traversal on one sequence element: `rewriteArr` maps
this function over the list (proved in `rewriteArr_eq_map`). -/
def rewriteElem (f : String → String) : Value → Value
  | .str s => if isRefString s then Value.str (f s) else .str s
  | v => rewriteValue f v

/-- The action of the traversal on one mapping entry: `rewriteObj` maps this
function over the list (proved in `rewriteObj_eq_map`). -/
def rewriteEntry (f : String → String) : String × Value → String × Value
  | (k, .str s) => (k, if k == "_ref" then Value.str (f s) else .str s)
  | (k, v) => (k, rewriteValue f v)

theorem rewriteArr_cons (f : String → String) (x : Value) (xs : List Value) :
    rewriteArr f (x :: xs) = rewriteElem f x :: rewriteArr f xs := by
  cases x <;> rfl

theorem rewriteObj_cons (f : String → String) (kv : String × Value)
    (kvs : List (String × Value)) :
    rewriteObj f (kv :: kvs) = rewriteEntry f kv :: rewriteObj f kvs := by
  obtain ⟨k, v⟩ := kv
  cases v <;> rfl

theorem rewriteArr_eq_map (f : String → String) (xs : List Value) :
    rewriteArr f xs = xs.map (rewriteElem f) := by
  induction xs with
  | nil => rfl
  | cons x xs ih => rw [rewriteArr_cons, ih, List.map_cons]

theorem rewriteObj_eq_map (f : String → String) (kvs : List (String × Value)) :
    rewriteObj f kvs = kvs.map (rewriteEntry f) := by
  induction kvs with
  | nil => rfl
  | cons kv kvs ih => rw [rewriteObj_cons, ih, List.map_cons]

/-- A keyed record consumed and produced by the prefix transform. -/
structure Record where
  key : String
  value : Value

namespace Prefixes

/-- Modelled from the spec: `add(records, prefixValue)` — for each record,
emit it under `prefixValue + key` (pure concatenation) with every qualifying
reference string in the value prefixed (spec section 4.1). -/
def add (records : List Record) (prefixValue : String) : List Record :=
  records.map fun r => ⟨prefixValue ++ r.key, rewriteValue (addPrefixStr prefixValue) r.value⟩

/-- Modelled from the spec: `remove(records, prefixValue)` — mirrors `add`,
stripping the leading prefix from the key (no-op when absent) and from every
qualifying reference string in the value (spec section 4.1). -/
def remove (records : List Record) (prefixValue : String) : List Record :=
  records.map fun r =>
    ⟨removePrefixStr prefixValue r.key, rewriteValue (removePrefixStr prefixValue) r.value⟩

end Prefixes

theorem addPrefixStr_eq_append (p s : String) (h : startsWith p s = false) :
    addPrefixStr p s = p ++ s := by
  unfold addPrefixStr
  rw [h]
  simp

theorem startsWith_append (p s : String) : startsWith p (p ++ s) = true := by
  unfold startsWith
  rw [List.isPrefixOf_iff_prefix, String.data_append]
  exact List.prefix_append _ _

theorem removePrefixStr_append (p s : String) : removePrefixStr p (p ++ s) = s := by
  unfold removePrefixStr
  rw [if_pos (startsWith_append p s), String.data_append, List.drop_left]

theorem removePrefixStr_no_match (p s : String) (h : startsWith p s = false) :
    removePrefixStr p s = s := by
  unfold removePrefixStr
  rw [h]
  simp

theorem removePrefixStr_restores (p s : String) (h : startsWith p s = true) :
    p ++ removePrefixStr p s = s := by
  unfold removePrefixStr
  rw [if_pos h]
  unfold startsWith at h
  rw [List.isPrefixOf_iff_prefix] at h
  obtain ⟨t, ht⟩ := h
  apply String.ext
  show p.data ++ s.data.drop p.data.length = s.data
  rw [← ht, List.drop_left]

theorem roundtripStr (p s : String) (h : startsWith p s = false) :
    removePrefixStr p (addPrefixStr p s) = s := by
  rw [addPrefixStr_eq_append p s h, removePrefixStr_append]

theorem listContainsSub_append_left (pat l0 l : List Char)
    (h : listContainsSub pat l = true) : listContainsSub pat (l0 ++ l) = true := by
  induction l0 with
  | nil => simpa using h
  | cons c cs ih =>
    simp only [List.cons_append, listContainsSub, Bool.or_eq_true]
    exact Or.inr ih

theorem isRefString_append_left (p s : String) (h : isRefString s = true) :
    isRefString (p ++ s) = true := by
  unfold isRefString containsSubstr at h ⊢
  rw [String.data_append]
  rcases Bool.or_eq_true_iff.mp h with h1 | h1
  · exact Bool.or_eq_true_iff.mpr (Or.inl (listContainsSub_append_left _ _ _ h1))
  · exact Bool.or_eq_true_iff.mpr (Or.inr (listContainsSub_append_left _ _ _ h1))

mutual

/-- No string that the traversal would rewrite already starts with `p`. -/
def cleanValue (p : String) : Value → Bool
  | .arr xs => cleanArr p xs
  | .obj kvs => cleanObj p kvs
  | _ => true

/-- `cleanValue` over a sequence: a string element that would be rewritten
(a reference string) must not already start with `p`. -/
def cleanArr (p : String) : List Value → Bool
  | [] => true
  | .str s :: xs => (!isRefString s || !startsWith p s) && cleanArr p xs
  | x :: xs => cleanValue p x && cleanArr p xs

/-- `cleanValue` over a mapping: a `_ref` string value, which would be
rewritten, must not already start with `p`. -/
def cleanObj (p : String) : List (String × Value) → Bool
  | [] => true
  | (k, .str s) :: kvs => (!(k == "_ref") || !startsWith p s) && cleanObj p kvs
  | (_, v) :: kvs => cleanValue p v && cleanObj p kvs

end

/-- The clean condition for one sequence element. -/
def cleanElem (p : String) : Value → Bool
  | .str s => !isRefString s || !startsWith p s
  | v => cleanValue p v

/-- The clean condition for one mapping entry. -/
def cleanEntry (p : String) : String × Value → Bool
  | (k, .str s) => !(k == "_ref") || !startsWith p s
  | (_, v) => cleanValue p v

theorem cleanArr_cons (p : String) (x : Value) (xs : List Value) :
    cleanArr p (x :: xs) = (cleanElem p x && cleanArr p xs) := by
  cases x <;> rfl

theorem cleanObj_cons (p : String) (kv : String × Value) (kvs : List (String × Value)) :
    cleanObj p (kv :: kvs) = (cleanEntry p kv && cleanObj p kvs) := by
  obtain ⟨k, v⟩ := kv
  cases v <;> rfl

theorem roundtripElemStr (p s : String) (h : (!isRefString s || !startsWith p s) = true) :
    rewriteElem (removePrefixStr p) (rewriteElem (addPrefixStr p) (Value.str s)) = Value.str s := by
  show rewriteElem (removePrefixStr p)
      (if isRefString s then Value.str (addPrefixStr p s) else .str s) = Value.str s
  by_cases hr : isRefString s = true
  · have hs : startsWith p s = false := by
      rw [Bool.or_eq_true] at h
      simp only [hr, Bool.not_true, Bool.false_eq_true, false_or] at h
      simpa using h
    rw [if_pos hr]
    have hrt : isRefString (addPrefixStr p s) = true := by
      rw [addPrefixStr_eq_append p s hs]
      exact isRefString_append_left p s hr
    show (if isRefString (addPrefixStr p s) then Value.str (removePrefixStr p (addPrefixStr p s))
          else .str (addPrefixStr p s)) = Value.str s
    rw [if_pos hrt, roundtripStr p s hs]
  · rw [if_neg hr]
    show (if isRefString s then Value.str (removePrefixStr p s) else .str s) = Value.str s
    rw [if_neg hr]

theorem roundtripEntryStr (p k s : String) (h : (!(k == "_ref") || !startsWith p s) = true) :
    rewriteEntry (removePrefixStr p) (rewriteEntry (addPrefixStr p) (k, Value.str s))
      = (k, Value.str s) := by
  show rewriteEntry (removePrefixStr p)
      (k, if k == "_ref" then Value.str (addPrefixStr p s) else .str s) = (k, Value.str s)
  by_cases hk : (k == "_ref") = true
  · have hs : startsWith p s = false := by
      rw [Bool.or_eq_true] at h
      simp only [hk, Bool.not_true, Bool.false_eq_true, false_or] at h
      simpa using h
    rw [if_pos hk]
    show (k, if k == "_ref" then Value.str (removePrefixStr p (addPrefixStr p s))
          else .str (addPrefixStr p s)) = (k, Value.str s)
    rw [if_pos hk, roundtripStr p s hs]
  · rw [if_neg hk]
    show (k, if k == "_ref" then Value.str (removePrefixStr p s) else .str s) = (k, Value.str s)
    rw [if_neg hk]

mutual

theorem roundtripValue (p : String) (v : Value) (h : cleanValue p v = true) :
    rewriteValue (removePrefixStr p) (rewriteValue (addPrefixStr p) v) = v := by
  match v with
  | .str s => rfl
  | .num n => rfl
  | .bool b => rfl
  | .null => rfl
  | .undef => rfl
  | .arr xs =>
    show Value.arr (rewriteArr (removePrefixStr p) (rewriteArr (addPrefixStr p) xs)) = Value.arr xs
    rw [roundtripArr p xs h]
  | .obj kvs =>
    show Value.obj (rewriteObj (removePrefixStr p) (rewriteObj (addPrefixStr p) kvs)) = Value.obj kvs
    rw [roundtripObj p kvs h]

theorem roundtripArr (p : String) (xs : List Value) (h : cleanArr p xs = true) :
    rewriteArr (removePrefixStr p) (rewriteArr (addPrefixStr p) xs) = xs := by
  match xs with
  | [] => rfl
  | .str s :: rest =>
    have h' : ((!isRefString s || !startsWith p s) && cleanArr p rest) = true := h
    rw [Bool.and_eq_true] at h'
    rw [rewriteArr_cons, rewriteArr_cons, roundtripElemStr p s h'.1, roundtripArr p rest h'.2]
  | .num n :: rest =>
    have h' : (cleanValue p (.num n) && cleanArr p rest) = true := h
    rw [Bool.and_eq_true] at h'
    show Value.num n :: rewriteArr (removePrefixStr p) (rewriteArr (addPrefixStr p) rest)
      = Value.num n :: rest
    rw [roundtripArr p rest h'.2]
  | .bool b :: rest =>
    have h' : (cleanValue p (.bool b) && cleanArr p rest) = true := h
    rw [Bool.and_eq_true] at h'
    show Value.bool b :: rewriteArr (removePrefixStr p) (rewriteArr (addPrefixStr p) rest)
      = Value.bool b :: rest
    rw [roundtripArr p rest h'.2]
  | .null :: rest =>
    have h' : (cleanValue p .null && cleanArr p rest) = true := h
    rw [Bool.and_eq_true] at h'
    show Value.null :: rewriteArr (removePrefixStr p) (rewriteArr (addPrefixStr p) rest)
      = Value.null :: rest
    rw [roundtripArr p rest h'.2]
  | .undef :: rest =>
    have h' : (cleanValue p .undef && cleanArr p rest) = true := h
    rw [Bool.and_eq_true] at h'
    show Value.undef :: rewriteArr (removePrefixStr p) (rewriteArr (addPrefixStr p) rest)
      = Value.undef :: rest
    rw [roundtripArr p rest h'.2]
  | .arr ys :: rest =>
    have h' : (cleanValue p (.arr ys) && cleanArr p rest) = true := h
    rw [Bool.and_eq_true] at h'
    show rewriteValue (removePrefixStr p) (rewriteValue (addPrefixStr p) (Value.arr ys))
        :: rewriteArr (removePrefixStr p) (rewriteArr (addPrefixStr p) rest)
      = Value.arr ys :: rest
    rw [roundtripValue p (.arr ys) h'.1, roundtripArr p rest h'.2]
  | .obj kvs :: rest =>
    have h' : (cleanValue p (.obj kvs) && cleanArr p rest) = true := h
    rw [Bool.and_eq_true] at h'
    show rewriteValue (removePrefixStr p) (rewriteValue (addPrefixStr p) (Value.obj kvs))
        :: rewriteArr (removePrefixStr p) (rewriteArr (addPrefixStr p) rest)
      = Value.obj kvs :: rest
    rw [roundtripValue p (.obj kvs) h'.1, roundtripArr p rest h'.2]

theorem roundtripObj (p : String) (kvs : List (String × Value)) (h : cleanObj p kvs = true) :
    rewriteObj (removePrefixStr p) (rewriteObj (addPrefixStr p) kvs) = kvs := by
  match kvs with
  | [] => rfl
  | (k, .str s) :: rest =>
    have h' : ((!(k == "_ref") || !startsWith p s) && cleanObj p rest) = true := h
    rw [Bool.and_eq_true] at h'
    rw [rewriteObj_cons, rewriteObj_cons, roundtripEntryStr p k s h'.1, roundtripObj p rest h'.2]
  | (k, .num n) :: rest =>
    have h' : (cleanValue p (.num n) && cleanObj p rest) = true := h
    rw [Bool.and_eq_true] at h'
    show (k, Value.num n) :: rewriteObj (removePrefixStr p) (rewriteObj (addPrefixStr p) rest)
      = (k, Value.num n) :: rest
    rw [roundtripObj p rest h'.2]
  | (k, .bool b) :: rest =>
    have h' : (cleanValue p (.bool b) && cleanObj p rest) = true := h
    rw [Bool.and_eq_true] at h'
    show (k, Value.bool b) :: rewriteObj (removePrefixStr p) (rewriteObj (addPrefixStr p) rest)
      = (k, Value.bool b) :: rest
    rw [roundtripObj p rest h'.2]
  | (k, .null) :: rest =>
    have h' : (cleanValue p .null && cleanObj p rest) = true := h
    rw [Bool.and_eq_true] at h'
    show (k, Value.null) :: rewriteObj (removePrefixStr p) (rewriteObj (addPrefixStr p) rest)
      = (k, Value.null) :: rest
    rw [roundtripObj p rest h'.2]
  | (k, .undef) :: rest =>
    have h' : (cleanValue p .undef && cleanObj p rest) = true := h
    rw [Bool.and_eq_true] at h'
    show (k, Value.undef) :: rewriteObj (removePrefixStr p) (rewriteObj (addPrefixStr p) rest)
      = (k, Value.undef) :: rest
    rw [roundtripObj p rest h'.2]
  | (k, .arr ys) :: rest =>
    have h' : (cleanValue p (.arr ys) && cleanObj p rest) = true := h
    rw [Bool.and_eq_true] at h'
    show (k, rewriteValue (removePrefixStr p) (rewriteValue (addPrefixStr p) (Value.arr ys)))
        :: rewriteObj (removePrefixStr p) (rewriteObj (addPrefixStr p) rest)
      = (k, Value.arr ys) :: rest
    rw [roundtripValue p (.arr ys) h'.1, roundtripObj p rest h'.2]
  | (k, .obj kvs2) :: rest =>
    have h' : (cleanValue p (.obj kvs2) && cleanObj p rest) = true := h
    rw [Bool.and_eq_true] at h'
    show (k, rewriteValue (removePrefixStr p) (rewriteValue (addPrefixStr p) (Value.obj kvs2)))
        :: rewriteObj (removePrefixStr p) (rewriteObj (addPrefixStr p) rest)
      = (k, Value.obj kvs2) :: rest
    rw [roundtripValue p (.obj kvs2) h'.1, roundtripObj p rest h'.2]

end

/-- The first-character test of `bucket` (`name.match(/^[a-d]/i)` etc.),
expressed on the character code `n` of the first character: checked against
the lowercase and the uppercase code range of each bucket, mirroring the
case-insensitive regexes in `lib/compilation-helpers.js` lines 47-61. -/
def bucketChar (n : Nat) : String :=
  if (97 ≤ n ∧ n ≤ 100) ∨ (65 ≤ n ∧ n ≤ 68) then "a-d"
  else if (101 ≤ n ∧ n ≤ 104) ∨ (69 ≤ n ∧ n ≤ 72) then "e-h"
  else if (105 ≤ n ∧ n ≤ 108) ∨ (73 ≤ n ∧ n ≤ 76) then "i-l"
  else if (109 ≤ n ∧ n ≤ 112) ∨ (77 ≤ n ∧ n ≤ 80) then "m-p"
  else if (113 ≤ n ∧ n ≤ 116) ∨ (81 ≤ n ∧ n ≤ 84) then "q-t"
  else "u-z"

/-- `bucket(name)` from `lib/compilation-helpers.js` lines 47-61: the bucket
of the alphabet that the first letter of `name` falls into; a name with no
matching first character (including the empty name) falls in `'u-z'`. -/
def bucket (name : String) : String :=
  match name.data with
  | [] => "u-z"
  | c :: _ => bucketChar c.toNat

/-- The six bucket labels, in the order the source lists them. -/
def bucketList : List String :=
  ["a-d", "e-h", "i-l", "m-p", "q-t", "u-z"]

/-- `unbucket(name)` from `lib/compilation-helpers.js` lines 68-70: the first
bucket label occurring as a substring of `name` (lodash `_.find` over
`_.includes`), or none. -/
def unbucket (name : String) : Option String :=
  bucketList.find? fun matcher => containsSubstr name matcher

/-- The outcome of a call to `determinePostCSSPlugins`: a returned value
together with whether `console.error` was called, or a thrown error. -/
inductive JsOutcome where
  | ok (value : Value) (loggedError : Bool) : JsOutcome
  | thrown (msg : String) : JsOutcome

/-- Whether a JavaScript value is truthy (`if (configPlugins)`). -/
def truthy : Value → Bool
  | .undef => false
  | .null => false
  | .bool b => b
  | .num n => n != 0
  | .str s => s != ""
  | .arr _ => true
  | .obj _ => true

/-- `Array.isArray`. -/
def isArray : Value → Bool
  | .arr _ => true
  | _ => false

/-- The `_.map(argv.plugins, ...)` loop of `determinePostCSSPlugins`
(`lib/compilation-helpers.js` lines 145-156): each plugin name is required
(`amphoraFs.tryRequire`, modelled by the environment `tryRequire`, whose
result also models invoking the plugin); a missing plugin throws, a plugin
whose invocation fails logs the error and yields `undefined`. -/
def initPlugins (tryRequire : String → Option (Except String Value)) :
    List String → Except String (List Value × Bool)
  | [] => .ok ([], false)
  | name :: rest =>
    match tryRequire name with
    | none => .error ("Error: Cannot find plugin \"" ++ name ++ "\"")
    | some (.ok v) =>
      match initPlugins tryRequire rest with
      | .error m => .error m
      | .ok (vs, logged) => .ok (v :: vs, logged)
    | some (.error _) =>
      match initPlugins tryRequire rest with
      | .error m => .error m
      | .ok (vs, _) => .ok (Value.undef :: vs, true)

/-- `determinePostCSSPlugins(argv)` from `lib/compilation-helpers.js` lines
134-158.  The config file lookup `configFile.getConfigValue('plugins')` is
modelled by the parameter `configPlugins`.  A truthy config value is returned
as-is, with an error logged when it is not an array; otherwise the plugins
named in `argv.plugins` are required and invoked. -/
def determinePostCSSPlugins (configPlugins : Value)
    (tryRequire : String → Option (Except String Value))
    (argvPlugins : List String) : JsOutcome :=
  if truthy configPlugins then
    .ok configPlugins (!isArray configPlugins)
  else
    match initPlugins tryRequire argvPlugins with
    | .error m => .thrown m
    | .ok (vs, logged) => .ok (.arr vs) logged

/-- C1: for every record `r` and prefix `p` such that neither `r`'s key nor
any reference string the traversal would rewrite already starts with `p`,
applying `add` to `[r]` and then `remove` with the same `p` yields `[r]`:
add followed by remove is the identity. -/
theorem claim1_add_then_remove_is_identity (p : String) (r : Record)
    (_hkey : startsWith p r.key = false) (hval : cleanValue p r.value = true) :
    Prefixes.remove (Prefixes.add [r] p) p = [r] := by
  show [(⟨removePrefixStr p (p ++ r.key),
      rewriteValue (removePrefixStr p) (rewriteValue (addPrefixStr p) r.value)⟩ : Record)] = [r]
  rw [removePrefixStr_append, roundtripValue p r.value hval]

theorem claim1_roundtrip_witness :
    Prefixes.remove (Prefixes.add
        [⟨"/_components/foo/instances/bar",
          Value.obj [("a", Value.obj [("_ref", Value.str "/_components/bar/instances/baz"),
                                      ("c", Value.str "d")])]⟩] "domain.com") "domain.com"
      = [⟨"/_components/foo/instances/bar",
          Value.obj [("a", Value.obj [("_ref", Value.str "/_components/bar/instances/baz"),
                                      ("c", Value.str "d")])]⟩] :=
  claim1_add_then_remove_is_identity "domain.com" _ (by rfl) (by rfl)

/-- C5: `add` emits each record under the new key `p ++ key`, computed by
pure string concatenation with no normalization of duplicate slashes, and
the test-suite example keeps its value `{a: 'b'}` unchanged. -/
theorem claim5_key_is_pure_concatenation (p key : String) (v : Value) :
    Prefixes.add [⟨key, v⟩] p = [⟨p ++ key, rewriteValue (addPrefixStr p) v⟩]
    ∧ Prefixes.add [⟨"/_components/foo/instances/bar", Value.obj [("a", Value.str "b")]⟩]
        "domain.com"
      = [⟨"domain.com/_components/foo/instances/bar", Value.obj [("a", Value.str "b")]⟩]
    ∧ Prefixes.add [⟨"/_components/a", Value.null⟩] "domain.com/"
      = [⟨"domain.com//_components/a", Value.null⟩] :=
  ⟨rfl, by rfl, by rfl⟩

/-- C6: `remove` leaves a key unchanged when it does not start with the
prefix (a no-op, not an error), and strips exactly the leading prefix when
it does (restored by re-concatenation). -/
theorem claim6_remove_key_noop_or_strip (p key : String) (v : Value) :
    (startsWith p key = false →
      Prefixes.remove [⟨key, v⟩] p = [⟨key, rewriteValue (removePrefixStr p) v⟩])
    ∧ (startsWith p key = true →
      p ++ removePrefixStr p key = key
      ∧ Prefixes.remove [⟨key, v⟩] p
          = [⟨removePrefixStr p key, rewriteValue (removePrefixStr p) v⟩]) := by
  constructor
  · intro h
    show [(⟨removePrefixStr p key, rewriteValue (removePrefixStr p) v⟩ : Record)] = _
    rw [removePrefixStr_no_match p key h]
  · intro h
    exact ⟨removePrefixStr_restores p key h, rfl⟩

theorem claim6_remove_key_witness :
    Prefixes.remove [⟨"/_components/foo", Value.null⟩] "domain.com"
      = [⟨"/_components/foo", Value.null⟩]
    ∧ "domain.com" ++ removePrefixStr "domain.com" "domain.com/_components/foo"
      = "domain.com/_components/foo" :=
  ⟨(claim6_remove_key_noop_or_strip "domain.com" "/_components/foo" Value.null).1 (by rfl),
   ((claim6_remove_key_noop_or_strip "domain.com" "domain.com/_components/foo" Value.null).2
     (by rfl)).1⟩

/-- C7: in both structural positions (sequence element, `_ref` value) the
string operation is applied; `add`'s operation prepends the prefix exactly
when the string does not already start with it (no double-prefixing), and
`remove`'s strips it exactly when it does. -/
theorem claim7_already_prefixed_guard (p s : String) (hr : isRefString s = true) :
    rewriteElem (addPrefixStr p) (Value.str s) = Value.str (addPrefixStr p s)
    ∧ rewriteEntry (addPrefixStr p) ("_ref", Value.str s)
        = ("_ref", Value.str (addPrefixStr p s))
    ∧ rewriteElem (removePrefixStr p) (Value.str s) = Value.str (removePrefixStr p s)
    ∧ rewriteEntry (removePrefixStr p) ("_ref", Value.str s)
        = ("_ref", Value.str (removePrefixStr p s))
    ∧ (startsWith p s = true → addPrefixStr p s = s)
    ∧ (startsWith p s = false → addPrefixStr p s = p ++ s)
    ∧ (startsWith p s = true → p ++ removePrefixStr p s = s)
    ∧ (startsWith p s = false → removePrefixStr p s = s) := by
  refine ⟨?_, by rfl, ?_, by rfl, ?_, addPrefixStr_eq_append p s,
    removePrefixStr_restores p s, removePrefixStr_no_match p s⟩
  · show (if isRefString s then Value.str (addPrefixStr p s) else .str s) = _
    rw [if_pos hr]
  · show (if isRefString s then Value.str (removePrefixStr p s) else .str s) = _
    rw [if_pos hr]
  · intro h
    unfold addPrefixStr
    rw [if_pos h]

theorem claim7_guard_witness :
    rewriteElem (addPrefixStr "domain.com") (Value.str "/_components/foo")
      = Value.str (addPrefixStr "domain.com" "/_components/foo")
    ∧ addPrefixStr "domain.com" "/_components/foo" = "domain.com" ++ "/_components/foo"
    ∧ addPrefixStr "domain.com" "domain.com/_components/foo" = "domain.com/_components/foo" := by
  have h1 := claim7_already_prefixed_guard "domain.com" "/_components/foo" (by rfl)
  have h2 := claim7_already_prefixed_guard "domain.com" "domain.com/_components/foo" (by rfl)
  exact ⟨h1.1, h1.2.2.2.2.2.1 (by rfl), h2.2.2.2.2.1 (by rfl)⟩

/-- C8: `add` and `remove` are total, permissive transforms: a key without a
leading slash is simply concatenated (no validation error), and a `_ref`
entry whose value is not a string is recursed into rather than rejected. -/
theorem claim8_permissive_transform (p key : String) (v : Value) (f : String → String) :
    Prefixes.add [⟨key, v⟩] p = [⟨p ++ key, rewriteValue (addPrefixStr p) v⟩]
    ∧ Prefixes.remove [⟨key, v⟩] p
        = [⟨removePrefixStr p key, rewriteValue (removePrefixStr p) v⟩]
    ∧ Prefixes.add [⟨"no-leading-slash", Value.null⟩] p
        = [⟨p ++ "no-leading-slash", Value.null⟩]
    ∧ (∀ n : Int, rewriteEntry f ("_ref", Value.num n) = ("_ref", Value.num n))
    ∧ (∀ b : Bool, rewriteEntry f ("_ref", Value.bool b) = ("_ref", Value.bool b))
    ∧ rewriteEntry f ("_ref", Value.null) = ("_ref", Value.null)
    ∧ (∀ ys : List Value,
        rewriteEntry f ("_ref", Value.arr ys) = ("_ref", rewriteValue f (Value.arr ys)))
    ∧ (∀ kvs : List (String × Value),
        rewriteEntry f ("_ref", Value.obj kvs) = ("_ref", rewriteValue f (Value.obj kvs))) :=
  ⟨rfl, rfl, rfl, fun _ => rfl, fun _ => rfl, rfl, fun _ => rfl, fun _ => rfl⟩

/-- C10: when the config file supplies a truthy `plugins` value that is not
an array, `determinePostCSSPlugins` logs an error but still returns that
non-array value unchanged: it neither throws nor falls back to requiring
the plugins named in `argv.plugins`. -/
theorem claim10_truthy_nonarray_config (configPlugins : Value)
    (tryRequire : String → Option (Except String Value)) (argvPlugins : List String)
    (ht : truthy configPlugins = true) (ha : isArray configPlugins = false) :
    determinePostCSSPlugins configPlugins tryRequire argvPlugins
      = JsOutcome.ok configPlugins true := by
  unfold determinePostCSSPlugins
  rw [if_pos ht, ha]
  rfl

theorem claim10_nonarray_witness :
    determinePostCSSPlugins (Value.str "not-an-array") (fun _ => none) []
      = JsOutcome.ok (Value.str "not-an-array") true :=
  claim10_truthy_nonarray_config _ _ _ (by decide) (by decide)

/-- C2: a plain string field of a mapping whose key is not `_ref` (and which
is not a sequence element) is emitted byte-for-byte unchanged by both `add`
and `remove`, whatever its content. -/
theorem claim2_free_text_preserved (p key : String) (kvs : List (String × Value))
    (i : Nat) (k s : String) (hk : (k == "_ref") = false)
    (hv : kvs[i]? = some (k, Value.str s)) :
    Prefixes.add [⟨key, Value.obj kvs⟩] p
        = [⟨p ++ key, Value.obj (kvs.map (rewriteEntry (addPrefixStr p)))⟩]
    ∧ Prefixes.remove [⟨key, Value.obj kvs⟩] p
        = [⟨removePrefixStr p key, Value.obj (kvs.map (rewriteEntry (removePrefixStr p)))⟩]
    ∧ (kvs.map (rewriteEntry (addPrefixStr p)))[i]? = some (k, Value.str s)
    ∧ (kvs.map (rewriteEntry (removePrefixStr p)))[i]? = some (k, Value.str s) := by
  have hmap : ∀ f : String → String,
      (kvs.map (rewriteEntry f))[i]? = some (k, Value.str s) := by
    intro f
    rw [List.getElem?_map, hv]
    show some (k, if k == "_ref" then Value.str (f s) else .str s) = some (k, Value.str s)
    rw [hk]
    simp
  refine ⟨?_, ?_, hmap _, hmap _⟩
  · show [(⟨p ++ key, Value.obj (rewriteObj (addPrefixStr p) kvs)⟩ : Record)] = _
    rw [rewriteObj_eq_map]
  · show [(⟨removePrefixStr p key, Value.obj (rewriteObj (removePrefixStr p) kvs)⟩ : Record)] = _
    rw [rewriteObj_eq_map]

theorem claim2_free_text_witness :
    Prefixes.add
        [⟨"/_components/paragraph/instances/example",
          Value.obj [("text", Value.str "Sanjay Srivastava <a href=\"http://pages.uoregon.edu/sanjay/bigfive.html#whatisit\" target=\"_blank\">explains on his website</a>, each")]⟩]
        "domain.com"
      = [⟨"domain.com/_components/paragraph/instances/example",
          Value.obj ([("text", Value.str "Sanjay Srivastava <a href=\"http://pages.uoregon.edu/sanjay/bigfive.html#whatisit\" target=\"_blank\">explains on his website</a>, each")].map
            (rewriteEntry (addPrefixStr "domain.com")))⟩]
    ∧ ([("text", Value.str "Sanjay Srivastava <a href=\"http://pages.uoregon.edu/sanjay/bigfive.html#whatisit\" target=\"_blank\">explains on his website</a>, each")].map
        (rewriteEntry (addPrefixStr "domain.com")))[0]?
      = some ("text", Value.str "Sanjay Srivastava <a href=\"http://pages.uoregon.edu/sanjay/bigfive.html#whatisit\" target=\"_blank\">explains on his website</a>, each") := by
  have h := claim2_free_text_preserved "domain.com" "/_components/paragraph/instances/example"
    [("text", Value.str "Sanjay Srivastava <a href=\"http://pages.uoregon.edu/sanjay/bigfive.html#whatisit\" target=\"_blank\">explains on his website</a>, each")]
    0 "text" "Sanjay Srivastava <a href=\"http://pages.uoregon.edu/sanjay/bigfive.html#whatisit\" target=\"_blank\">explains on his website</a>, each"
    (by rfl) (by rfl)
  exact ⟨h.1, h.2.2.1⟩

/-- C3: a mapping entry with key `_ref` and a string value has that string
rewritten by prepending the prefix (when not already prefixed); every
sibling plain string entry under another key is untouched; the test-suite
example rewrites the nested `_ref` and leaves sibling `c` equal to `'d'`. -/
theorem claim3_nested_ref_rewritten (p : String) (kvs : List (String × Value))
    (i : Nat) (s : String) (hv : kvs[i]? = some ("_ref", Value.str s))
    (hs : startsWith p s = false) :
    rewriteValue (addPrefixStr p) (Value.obj kvs)
        = Value.obj (kvs.map (rewriteEntry (addPrefixStr p)))
    ∧ (kvs.map (rewriteEntry (addPrefixStr p)))[i]? = some ("_ref", Value.str (p ++ s))
    ∧ (∀ (j : Nat) (k t : String), (k == "_ref") = false →
        kvs[j]? = some (k, Value.str t) →
        (kvs.map (rewriteEntry (addPrefixStr p)))[j]? = some (k, Value.str t))
    ∧ Prefixes.add
        [⟨"/_components/foo/instances/bar",
          Value.obj [("a", Value.obj [("_ref", Value.str "/_components/bar/instances/baz"),
                                      ("c", Value.str "d")])]⟩] "domain.com"
      = [⟨"domain.com/_components/foo/instances/bar",
          Value.obj [("a", Value.obj [("_ref", Value.str "domain.com/_components/bar/instances/baz"),
                                      ("c", Value.str "d")])]⟩] := by
  refine ⟨?_, ?_, ?_, by rfl⟩
  · show Value.obj (rewriteObj (addPrefixStr p) kvs) = _
    rw [rewriteObj_eq_map]
  · rw [List.getElem?_map, hv]
    show some ("_ref", Value.str (addPrefixStr p s)) = _
    rw [addPrefixStr_eq_append p s hs]
  · intro j k t hk hvt
    rw [List.getElem?_map, hvt]
    show some (k, if k == "_ref" then Value.str (addPrefixStr p t) else .str t)
      = some (k, Value.str t)
    rw [hk]
    simp

theorem claim3_nested_ref_witness :
    ([("_ref", Value.str "/_components/bar/instances/baz"),
      ("c", Value.str "d")].map (rewriteEntry (addPrefixStr "domain.com")))[0]?
      = some ("_ref", Value.str ("domain.com" ++ "/_components/bar/instances/baz"))
    ∧ ([("_ref", Value.str "/_components/bar/instances/baz"),
        ("c", Value.str "d")].map (rewriteEntry (addPrefixStr "domain.com")))[1]?
      = some ("c", Value.str "d")
    ∧ Prefixes.add
        [⟨"/_components/foo/instances/bar",
          Value.obj [("a", Value.obj [("_ref", Value.str "/_components/bar/instances/baz"),
                                      ("c", Value.str "d")])]⟩] "domain.com"
      = [⟨"domain.com/_components/foo/instances/bar",
          Value.obj [("a", Value.obj [("_ref", Value.str "domain.com/_components/bar/instances/baz"),
                                      ("c", Value.str "d")])]⟩] := by
  have h := claim3_nested_ref_rewritten "domain.com"
    [("_ref", Value.str "/_components/bar/instances/baz"), ("c", Value.str "d")]
    0 "/_components/bar/instances/baz" (by rfl) (by rfl)
  exact ⟨h.2.1, h.2.2.1 1 "c" "d" (by rfl) (by rfl), h.2.2.2⟩

/-- C4: every string element of a sequence that is a reference string is
rewritten by prepending the prefix (when not already prefixed); non-string
elements pass through, recursed into when they are containers; the
test-suite example prefixes the page's `main` list. -/
theorem claim4_array_refs_rewritten (p : String) (xs : List Value)
    (i : Nat) (s : String) (hv : xs[i]? = some (Value.str s))
    (hr : isRefString s = true) (hs : startsWith p s = false) :
    rewriteValue (addPrefixStr p) (Value.arr xs)
        = Value.arr (xs.map (rewriteElem (addPrefixStr p)))
    ∧ (xs.map (rewriteElem (addPrefixStr p)))[i]? = some (Value.str (p ++ s))
    ∧ (∀ n : Int, rewriteElem (addPrefixStr p) (Value.num n) = Value.num n)
    ∧ (∀ b : Bool, rewriteElem (addPrefixStr p) (Value.bool b) = Value.bool b)
    ∧ rewriteElem (addPrefixStr p) Value.null = Value.null
    ∧ (∀ ys : List Value, rewriteElem (addPrefixStr p) (Value.arr ys)
        = rewriteValue (addPrefixStr p) (Value.arr ys))
    ∧ (∀ kvs : List (String × Value), rewriteElem (addPrefixStr p) (Value.obj kvs)
        = rewriteValue (addPrefixStr p) (Value.obj kvs))
    ∧ Prefixes.add
        [⟨"/_pages/abc", Value.obj [("main", Value.arr [Value.str "/_components/foo/instances/bar"])]⟩]
        "domain.com"
      = [⟨"domain.com/_pages/abc",
          Value.obj [("main", Value.arr [Value.str "domain.com/_components/foo/instances/bar"])]⟩] := by
  refine ⟨?_, ?_, fun _ => rfl, fun _ => rfl, rfl, fun _ => rfl, fun _ => rfl, by rfl⟩
  · show Value.arr (rewriteArr (addPrefixStr p) xs) = _
    rw [rewriteArr_eq_map]
  · rw [List.getElem?_map, hv]
    show some (if isRefString s then Value.str (addPrefixStr p s) else .str s)
      = some (Value.str (p ++ s))
    rw [if_pos hr, addPrefixStr_eq_append p s hs]

theorem claim4_array_refs_witness :
    ([Value.str "/_components/foo/instances/bar"].map (rewriteElem (addPrefixStr "domain.com")))[0]?
      = some (Value.str ("domain.com" ++ "/_components/foo/instances/bar"))
    ∧ Prefixes.add
        [⟨"/_pages/abc", Value.obj [("main", Value.arr [Value.str "/_components/foo/instances/bar"])]⟩]
        "domain.com"
      = [⟨"domain.com/_pages/abc",
          Value.obj [("main", Value.arr [Value.str "domain.com/_components/foo/instances/bar"])]⟩] := by
  have h := claim4_array_refs_rewritten "domain.com" [Value.str "/_components/foo/instances/bar"]
    0 "/_components/foo/instances/bar" (by rfl) (by rfl) (by rfl)
  exact ⟨h.2.1, h.2.2.2.2.2.2.2⟩

theorem bucketChar_mem (n : Nat) : bucketChar n ∈ bucketList := by
  unfold bucketChar
  split_ifs <;> decide

theorem bucket_mem (name : String) : bucket name ∈ bucketList := by
  unfold bucket
  cases h : name.data with
  | nil => decide
  | cons c rest => exact bucketChar_mem c.toNat

theorem unbucket_bucket (name : String) : unbucket (bucket name) = some (bucket name) := by
  have h := bucket_mem name
  simp only [bucketList, List.mem_cons, List.not_mem_nil, or_false] at h
  rcases h with h | h | h | h | h | h <;> rw [h] <;> decide

/-- The 26 uppercase ASCII letters, used to state case-insensitivity of
`bucket`'s regexes. -/
def upperAlphaChars : List Char :=
  ['A', 'B', 'C', 'D', 'E', 'F', 'G', 'H', 'I', 'J', 'K', 'L', 'M',
   'N', 'O', 'P', 'Q', 'R', 'S', 'T', 'U', 'V', 'W', 'X', 'Y', 'Z']

/-- C9: `bucket` always returns one of the six labels; a name whose first
character is not an ASCII letter goes to `'u-z'`; the match on the first
letter is case-insensitive; and `unbucket` recovers the label from any name
containing it, in particular `unbucket (bucket name) = some (bucket name)`. -/
theorem claim9_bucket_labels_and_unbucket (name : String) :
    bucket name ∈ bucketList
    ∧ unbucket (bucket name) = some (bucket name)
    ∧ (∀ (c : Char) (rest : List Char),
        ¬ ((97 ≤ c.toNat ∧ c.toNat ≤ 122) ∨ (65 ≤ c.toNat ∧ c.toNat ≤ 90)) →
        bucket (String.mk (c :: rest)) = "u-z")
    ∧ (∀ (c : Char) (rest : List Char), c ∈ upperAlphaChars →
        bucket (String.mk (c :: rest)) = bucket (String.mk (c.toLower :: rest))) := by
  refine ⟨bucket_mem name, unbucket_bucket name, ?_, ?_⟩
  · intro c rest hc
    show bucketChar c.toNat = "u-z"
    unfold bucketChar
    split_ifs <;> first | rfl | omega
  · intro c rest hc
    fin_cases hc <;> rfl

theorem claim9_bucket_witness :
    bucket "foo" ∈ bucketList
    ∧ unbucket (bucket "foo") = some (bucket "foo")
    ∧ bucket (String.mk ('9' :: ['x'])) = "u-z"
    ∧ bucket (String.mk ('A' :: ['b'])) = bucket (String.mk ('A'.toLower :: ['b'])) :=
  ⟨(claim9_bucket_labels_and_unbucket "foo").1,
   (claim9_bucket_labels_and_unbucket "foo").2.1,
   (claim9_bucket_labels_and_unbucket "foo").2.2.1 '9' ['x'] (by decide),
   (claim9_bucket_labels_and_unbucket "foo").2.2.2 'A' ['b'] (by decide)⟩
